import Mathlib

/-!
Verification development for the Configuration Composition & Update Engine
of the `aluci-ai-template` repository.

The Python sources under `src/` are shallowly embedded below:

* `src/utils/file_utils.py` — extension dispatch (`get_file_extension`,
  `read_file`, `write_file`), the dotted-path YAML update (`_write_yaml`),
  and the lock discipline of the mutating helpers;
* `src/utils/hydra_utils.py` — `HydraUtils._ensure_resolver`,
  `HydraUtils.load_config`, `HydraUtils.update_config`;
* `src/schemas/base_schema.py` — `BaseSchema` with its `extra` catch-all.

Files are modelled as an association list from path strings to parsed YAML
documents; a YAML document is a tree of scalars, sequences (with a flow-style
flag, mirroring ruamel.yaml's `CommentedSeq`) and mappings.  Python `dict`
values are association lists with unique keys; `dict` lookup returning a
missing key is `Option.none` (a raised `KeyError`), and fallible operations
return `Except`.
-/

set_option autoImplicit false

namespace Aluci

/-- Association-list lookup, the embedding of Python `d[k]` read access on a
`dict` (first match; Python dicts have unique keys). -/
def lookupA {α : Type} (m : List (String × α)) (k : String) : Option α :=
  match m with
  | [] => none
  | kv :: rest => if kv.1 = k then some kv.2 else lookupA rest k

/-- Association-list update, the embedding of Python `d[k] = v` on a `dict`:
replace the value of an existing key in place, else append the new entry. -/
def setA {α : Type} (m : List (String × α)) (k : String) (v : α) : List (String × α) :=
  match m with
  | [] => [(k, v)]
  | kv :: rest => if kv.1 = k then (k, v) :: rest else kv :: setA rest k v

/-- A parsed YAML document: scalars, sequences (with ruamel.yaml's flow-style
flag) and mappings, as produced by `yaml.load` in `file_utils.py`. -/
inductive Doc where
  | scalar (s : String)
  | seq (flow : Bool) (xs : List Doc)
  | map (entries : List (String × Doc))

/-- Errors raised by the embedded operations (Python exception classes). -/
inductive Err where
  | keyError (k : String)
  | typeError
  | fileNotFound (p : String)
  | notImplementedError
  | attributeError (k : String)
  | composeError (s : String)
deriving DecidableEq

/-- Log levels used by `utils.log_utils.log` at the call sites modelled here. -/
inductive LogLevel where
  | success
  | warning
  | logError
deriving DecidableEq

/-- A log event: level and message. -/
abbrev LogEvent : Type := LogLevel × String

/-- The filesystem: a map from path strings to parsed YAML documents. -/
def FS : Type := List (String × Doc)

/-- File lookup on the filesystem model (`open(path)` succeeding or raising
`FileNotFoundError`). -/
def lookupFile (fs : FS) (p : String) : Option Doc := lookupA fs p

/-- Writing a file: the path now holds the given document. -/
def setFile (fs : FS) (p : String) (d : Doc) : FS := setA fs p d

/-- `Path(dir) / file` for a non-empty directory string. -/
def pathJoin (dir file : String) : String := dir ++ "/" ++ file

/-- The characters of the last non-empty path component: `PurePosixPath.name`.
Trailing slashes are stripped, then everything after the last `/` is kept. -/
def pyNameChars (l : List Char) : List Char :=
  ((l.reverse.dropWhile (fun c => c = '/')).takeWhile (fun c => c ≠ '/')).reverse

/-- `PurePosixPath.suffix`: the part of the name from its last dot, provided
that dot is neither the first nor the last character of the name; otherwise
the empty string.  Mirrors CPython's pathlib `suffix` property. -/
def pySuffixChars (name : List Char) : List Char :=
  match name.reverse.drop ((name.reverse.takeWhile (fun c => c ≠ '.')).length) with
  | [] => []
  | _ :: stemRev =>
      if stemRev.isEmpty || (name.reverse.takeWhile (fun c => c ≠ '.')).isEmpty then []
      else '.' :: (name.reverse.takeWhile (fun c => c ≠ '.')).reverse

/-- `s.removeprefix(".")` specialised to a leading dot. -/
def stripLeadingDot (l : List Char) : List Char :=
  match l with
  | '.' :: rest => rest
  | l => l

/-- Embedding of `file_utils.get_file_extension`:
`str(Path(path).suffix).removeprefix(".")`. -/
def get_file_extension (path : String) : String :=
  String.mk (stripLeadingDot (pySuffixChars (pyNameChars path.toList)))

/-- `s.split(sep)` on characters, accumulator-style: splits at every
occurrence of `sep`, keeping empty segments (Python `str.split` with an
explicit separator). -/
def splitCharAux (sep : Char) : List Char → List Char → List String
  | [], acc => [String.mk acc.reverse]
  | c :: rest, acc =>
      if c = sep then String.mk acc.reverse :: splitCharAux sep rest []
      else splitCharAux sep rest (c :: acc)

/-- Embedding of Python `s.split(sep)` for a one-character separator. -/
def splitChar (sep : Char) (s : String) : List String := splitCharAux sep s.toList []

/-- `key.split(".")` as used by `_write_yaml`. -/
def splitDots (s : String) : List String := splitChar '.' s

/-- Is this document node a YAML sequence (`isinstance(value, list)`)? -/
def isSeqDoc : Doc → Bool
  | .seq _ _ => true
  | _ => false

/-- `flow_seq.fa.set_flow_style()`: mark a sequence as flow-style. -/
def setFlowStyle : Doc → Doc
  | .seq _ xs => .seq true xs
  | d => d

/-- The value preparation step of `_write_yaml`: a non-empty list whose
elements are all lists is re-wrapped so each inner list serialises in flow
style while the outer list stays block style.  (The numpy/pandas `.tolist()`
conversion concerns foreign array types and values here are already plain
documents.) -/
def prepValue (v : Doc) : Doc :=
  match v with
  | .seq fl xs =>
      if !xs.isEmpty && xs.all isSeqDoc then .seq false (xs.map setFlowStyle)
      else .seq fl xs
  | d => d

/-- The descent loop of `_write_yaml`:
`for k in keys[:-1]: current_level = current_level[k]` followed by
`current_level[keys[-1]] = value`.  Indexing a mapping with a missing key
raises `KeyError`; string-indexing a sequence or scalar raises `TypeError`.
The final segment is assigned with `dict` semantics (created if missing). -/
def setDotted : Doc → List String → Doc → Except Err Doc
  | _, [], _ => .error .typeError
  | .map entries, [k], v => .ok (.map (setA entries k v))
  | .map entries, k :: k2 :: rest, v =>
      match lookupA entries k with
      | none => .error (.keyError k)
      | some sub =>
          match setDotted sub (k2 :: rest) v with
          | .error e => .error e
          | .ok sub' => .ok (.map (setA entries k sub'))
  | .seq _ _, _ :: _, _ => .error .typeError
  | .scalar _, _ :: _, _ => .error .typeError

/-- The update loop of `_write_yaml`: each `(key, value)` pair of `new_data`
is prepared and assigned along `key.split(".")`, in order, over the in-memory
document.  The first raised exception aborts the loop. -/
def applyUpdates (data : Doc) (updates : List (String × Doc)) : Except Err Doc :=
  match updates with
  | [] => .ok data
  | (k, v) :: rest =>
      match setDotted data (splitDots k) (prepValue v) with
      | .error e => .error e
      | .ok data' => applyUpdates data' rest

/-- Result of `read_file`: the returned document (or raised exception) and the
log events emitted. -/
structure ReadResult where
  result : Except Err Doc
  logs : List LogEvent

/-- Embedding of `file_utils.read_file`: dispatch on `get_file_extension`;
only `"yaml"` is implemented.  `_read_yaml` opens the file (raising a
not-found error for a missing path, before any logging) and parses it; on
success a success event is logged.  Any other extension logs an error and
raises `NotImplementedError`. -/
def read_file (fs : FS) (path : String) : ReadResult :=
  match get_file_extension path with
  | "yaml" =>
      match lookupFile fs path with
      | none => { result := .error (.fileNotFound path), logs := [] }
      | some d =>
          { result := .ok d
            logs := [(LogLevel.success, "Data were read successfully")] }
  | _ =>
      { result := .error .notImplementedError
        logs := [(LogLevel.logError, "Extension not implemented yet")] }

/-- Result of `write_file` / `_write_yaml`: the raised exception if any, the
filesystem afterwards, and the log events emitted. -/
structure WriteResult where
  err : Option Err
  fs : FS
  logs : List LogEvent

/-- Embedding of `file_utils._write_yaml` (under the module lock): read the
existing document via `read_file`, apply every dotted-path update to the
in-memory tree, and only then open the file for writing and dump the updated
tree.  An exception during the read or the update loop is raised before the
file is opened for writing, so the filesystem is unchanged in that case. -/
def write_yaml (fs : FS) (path : String) (new_data : List (String × Doc)) : WriteResult :=
  let r := read_file fs path
  match r.result with
  | .error e => { err := some e, fs := fs, logs := r.logs }
  | .ok data =>
      match applyUpdates data new_data with
      | .error e => { err := some e, fs := fs, logs := r.logs }
      | .ok data' => { err := none, fs := setFile fs path data', logs := r.logs }

/-- Embedding of `file_utils.write_file`: dispatch on `get_file_extension`;
`"yaml"` delegates to `_write_yaml` and logs success, anything else logs an
error and raises `NotImplementedError` without touching the filesystem. -/
def write_file (fs : FS) (path : String) (data : List (String × Doc)) : WriteResult :=
  match get_file_extension path with
  | "yaml" =>
      let w := write_yaml fs path data
      match w.err with
      | some e => { err := some e, fs := w.fs, logs := w.logs }
      | none =>
          { err := none, fs := w.fs
            logs := w.logs ++ [(LogLevel.success, "Data successfully written")] }
  | _ =>
      { err := some .notImplementedError, fs := fs
        logs := [(LogLevel.logError, "Extension not implemented yet")] }

/-! ## The path table

`configs/path_config.py` is imported by `hydra_utils.py` but is not among the
provided sources; only its callers are.  Modelled from the spec: an immutable
process-wide table of named filesystem locations (root, data, models, logs,
per-run log directory, config backup directory, source directory, configs
directory), with `configs` the default configuration source location
(`src/configs/`) and `config_backup` the run-scoped backup destination
(`logs/<date>/<time>/configs/`). -/

/-- Modelled from the spec: the attributes of the global `path_config` object.
`getattr(path_config, key)` raises `AttributeError` for a missing name, hence
the `Option`.  The concrete path strings stand for the locations the spec
names; no claim depends on their exact values. -/
def path_table (key : String) : Option String :=
  lookupA
    [("root", "root"),
     ("data", "root/data"),
     ("models", "root/models"),
     ("logs", "root/logs"),
     ("log_dir", "root/logs/run"),
     ("config_backup", "root/logs/run/configs"),
     ("src", "root/src"),
     ("configs", "root/src/configs")] key

/-- Modelled from the spec: `path_config.config_backup`, the run-scoped
backup directory into which `load_config` copies the resolved file. -/
def path_config_config_backup : String := "root/logs/run/configs"

/-- Modelled from the spec: `path_config.configs`, the default configuration
source directory (`HydraUtils.config_dir`'s class-level default). -/
def path_config_configs : String := "root/src/configs"

/-! ## `utils/hydra_utils.py` -/

/-- The process-wide state `HydraUtils` interacts with: the filesystem, the
`GlobalHydra` singleton's initialisation flag, OmegaConf's resolver registry
(names of registered resolvers plus the `use_cache=True` result cache of the
`path_config` resolver) and the class attribute `HydraUtils._resolver_registered`. -/
structure HydraState where
  fs : FS
  globalHydraInitialized : Bool
  resolverRegistered : Bool
  registeredResolvers : List String
  resolverCache : List (String × String)

/-- `HydraUtils.config_dir` class-level default: `path_config.configs`. -/
def HydraUtils_config_dir : String := path_config_configs

/-- `HydraUtils.config_file` class-level default. -/
def HydraUtils_config_file : String := "settings.yaml"

/-- Embedding of `HydraUtils._ensure_resolver`: if the class flag is unset,
register the `path_config` resolver with OmegaConf (with result caching) and
set the flag; otherwise do nothing. -/
def ensure_resolver (st : HydraState) : HydraState :=
  if st.resolverRegistered then st
  else
    { st with
        registeredResolvers := st.registeredResolvers ++ ["path_config"]
        resolverRegistered := true }

/-- Invoking the registered resolver on `key`.  Modelled from the source
lambda `lambda key: getattr(path_config, key)` together with OmegaConf's
`use_cache=True` behaviour described in the spec: the result cache is keyed
by input, a hit returns the cached result without re-executing the lookup,
and a missing attribute raises `AttributeError`. -/
def resolve_key (st : HydraState) (key : String) : Except Err String × HydraState :=
  match lookupA st.resolverCache key with
  | some v => (.ok v, st)
  | none =>
      match path_table key with
      | some v => (.ok v, { st with resolverCache := setA st.resolverCache key (v) })
      | none => (.error (.attributeError key), st)

/-- Python's `x or default` coalescing for `str | None` arguments: `None` and
the empty string are falsy, so both select the default. -/
def pyOrStr (x : Option String) (dflt : String) : String :=
  match x with
  | none => dflt
  | some s => if s = "" then dflt else s

/-- An override expression operator: plain overwrite, `+` (add), `++`
(force add-or-overwrite). -/
inductive OvOp where
  | overwrite
  | add
  | force

/-- Parse the operator prefix of an override expression. -/
def parseOvOp (l : List Char) : OvOp × List Char :=
  match l with
  | '+' :: '+' :: rest => (.force, rest)
  | '+' :: rest => (.add, rest)
  | l => (.overwrite, l)

/-- Split an override body at its first `=` into path and value. -/
def splitEq (l : List Char) (acc : List Char) : Option (String × String) :=
  match l with
  | [] => none
  | '=' :: rest => some (String.mk acc.reverse, String.mk rest)
  | c :: rest => splitEq rest (c :: acc)

/-- Modelled from the spec: the merge semantics of one override expression at
its final path segment.  Plain overwrite fails if the key is absent, `+`
fails if the key exists, `++` always assigns.  Intermediate segments must
already exist (as with the composition framework, missing intermediates are a
composition error). -/
def overrideSet : Doc → List String → Doc → OvOp → Except Err Doc
  | _, [], _, _ => .error .typeError
  | .map entries, [k], v, op =>
      match op, lookupA entries k with
      | .overwrite, none => .error (.keyError k)
      | .overwrite, some _ => .ok (.map (setA entries k v))
      | .add, some _ => .error (.keyError k)
      | .add, none => .ok (.map (setA entries k v))
      | .force, _ => .ok (.map (setA entries k v))
  | .map entries, k :: k2 :: rest, v, op =>
      match lookupA entries k with
      | none => .error (.keyError k)
      | some sub =>
          match overrideSet sub (k2 :: rest) v op with
          | .error e => .error e
          | .ok sub' => .ok (.map (setA entries k sub'))
  | .seq _ _, _ :: _, _, _ => .error .typeError
  | .scalar _, _ :: _, _, _ => .error .typeError

/-- Modelled from the spec: apply one override expression
`<op><dotted.path>=<value>` to the composed document. -/
def applyOverride (d : Doc) (s : String) : Except Err Doc :=
  let (op, body) := parseOvOp s.toList
  match splitEq body [] with
  | none => .error (.composeError s)
  | some (pathStr, valStr) => overrideSet d (splitDots pathStr) (.scalar valStr) op

/-- Modelled from the spec: `compose(config_file, overrides=...)` merges the
base document with each override expression in order. -/
def composeDoc (d : Doc) (overrides : List String) : Except Err Doc :=
  match overrides with
  | [] => .ok d
  | s :: rest =>
      match applyOverride d s with
      | .error e => .error e
      | .ok d' => composeDoc d' rest

/-- The value returned by `load_config`: either the raw uninstantiated
document (`OmegaConf.load`, the degraded already-initialized path) or the
recursively instantiated configuration (`instantiate(config, _convert_="object")`,
modelled as a tagged composed document). -/
inductive LoadResult where
  | raw (d : Doc)
  | instantiated (d : Doc)

/-- Embedding of `HydraUtils.load_config`:
1. `_ensure_resolver()`;
2. resolve the effective directory and file by `or`-coalescing against the
   class defaults, and join them into the config path;
3. `shutil.copy2(config_path, path_config.config_backup)` — reads the source
   file (raising a not-found error if absent, uncaught) and writes a copy
   into the backup directory under the file's name;
4. if `GlobalHydra.instance().is_initialized()`, return the raw document
   loaded from disk (`overrides` unused);
5. otherwise compose the file with `overrides` inside a temporary
   initialization context (cleared on exit) and instantiate the result. -/
def load_config (st : HydraState) (config_dir config_file : Option String)
    (overrides : List String) : Except Err (LoadResult × HydraState) :=
  let st := ensure_resolver st
  let dir := pyOrStr config_dir HydraUtils_config_dir
  let file := pyOrStr config_file HydraUtils_config_file
  let config_path := pathJoin dir file
  match lookupFile st.fs config_path with
  | none => .error (.fileNotFound config_path)
  | some d =>
      let st := { st with fs := setFile st.fs (pathJoin path_config_config_backup file) d }
      if st.globalHydraInitialized then
        .ok (.raw d, st)
      else
        match composeDoc d overrides with
        | .error e => .error e
        | .ok c => .ok (.instantiated c, st)

/-- Embedding of `HydraUtils.update_config`:
1. `_ensure_resolver()`;
2. resolve the effective directory and file and join them;
3. `write_file(path=config_path, data=updates)` — persist the updates
   (exceptions propagate);
4. `load_config(config_dir, config_file)` on the resolved values, with no
   overrides, returning its result. -/
def update_config (st : HydraState) (updates : List (String × Doc))
    (config_dir config_file : Option String) : Except Err (LoadResult × HydraState) :=
  let st := ensure_resolver st
  let dir := pyOrStr config_dir HydraUtils_config_dir
  let file := pyOrStr config_file HydraUtils_config_file
  let config_path := pathJoin dir file
  let w := write_file st.fs config_path updates
  match w.err with
  | some e => .error e
  | none => load_config { st with fs := w.fs } (some dir) (some file) []

/-! ## `schemas/base_schema.py` -/

/-- A Python value as passed into a schema constructor. -/
inductive PyVal where
  | pyNone
  | int (n : Int)
  | str (s : String)
  | dict (entries : List (String × PyVal))
  | list (xs : List PyVal)

/-- Embedding of `BaseSchema` after validation.  `fields` holds the declared
fields other than `extra` that the input provided, `pydExtra` the
extra-allowed undeclared attributes pydantic stores (`extra: "allow"`), and
`extra` the value of the declared `extra` field. -/
structure BaseSchema where
  fields : List (String × PyVal)
  pydExtra : List (String × PyVal)
  extra : List (String × PyVal)

/-- Embedding of `BaseSchema.collect_extra_fields` (a `mode="before"` model
validator): collect every input entry whose key is not a declared model field
into `extras`, then assign `values["extra"] = extras`, overwriting any
supplied `extra` entry. -/
def collect_extra_fields (declared : List String) (values : List (String × PyVal)) :
    List (String × PyVal) :=
  setA values "extra" (.dict (values.filter (fun kv => !declared.contains kv.1)))

/-- Pydantic validation of a `BaseSchema` subclass with declared field names
`declared` (which include `"extra"`): run the before-validator, then populate
every provided declared field from the validated values, store undeclared
entries as extra-allowed attributes, and decode the `extra` field's dict. -/
def mkSchema (declared : List String) (values : List (String × PyVal)) : BaseSchema :=
  { fields := (collect_extra_fields declared values).filter
      (fun kv => declared.contains kv.1 && kv.1 != "extra")
    pydExtra := (collect_extra_fields declared values).filter
      (fun kv => !declared.contains kv.1)
    extra :=
      match lookupA (collect_extra_fields declared values) "extra" with
      | some (.dict d) => d
      | _ => [] }

/-- The value stored at a declared field of the schema: the `extra` field
itself holds its dict, every other declared field its validated value. -/
def fieldValue (s : BaseSchema) (k : String) : Option PyVal :=
  if k = "extra" then some (.dict s.extra) else lookupA s.fields k

/-- `self.model_dump(exclude={"extra"}, mode="python")`: all fields except
`extra`, including the extra-allowed attributes pydantic stores. -/
def model_dump_no_extra (s : BaseSchema) : List (String × PyVal) :=
  s.fields ++ s.pydExtra

/-- Python `{**a, **b}`: the keys of `a` in order with `b`'s value where `b`
also binds them, followed by the keys of `b` not in `a`. -/
def pyDictMerge (a b : List (String × PyVal)) : List (String × PyVal) :=
  a.map (fun kv =>
      match lookupA b kv.1 with
      | some v => (kv.1, v)
      | none => kv)
    ++ b.filter (fun kv => (lookupA a kv.1).isNone)

/-- Embedding of `BaseSchema.to_dict`: `{**model_dump(exclude extra), **extra}`. -/
def to_dict (s : BaseSchema) : List (String × PyVal) :=
  pyDictMerge (model_dump_no_extra s) s.extra

/-- Embedding of `BaseSchema.__getitem__`: `self.to_dict()[key]`; `none` is a
raised `KeyError`. -/
def getItem (s : BaseSchema) (k : String) : Option PyVal :=
  lookupA (to_dict s) k

/-! ## Lock discipline of the file mutation operations

`file_utils.py` holds one module-level `threading.Lock` (`_lock`).  Each
mutating helper is modelled by the sequence of lock and filesystem actions it
performs, in source order; `fsMutate` marks a call that changes the
filesystem, `fsRead` one that only reads it. -/

/-- An atomic action of a file operation: acquiring/releasing a named lock,
mutating the filesystem, or reading it. -/
inductive FileAction where
  | lockAcquire (lock : String)
  | lockRelease (lock : String)
  | fsMutate (desc : String)
  | fsRead (desc : String)

/-- The module-level lock `file_utils._lock`. -/
def file_utils_lock : String := "file_utils._lock"

/-- Actions of `file_utils.rename_dir`: `with _lock: os.rename(...)`. -/
def rename_dir_actions (dir_path new_dir_path : String) : List FileAction :=
  [.lockAcquire file_utils_lock,
   .fsMutate ("rename " ++ dir_path ++ " to " ++ new_dir_path),
   .lockRelease file_utils_lock]

/-- Actions of `file_utils.create_dir`: `with _lock: os.makedirs(...)`
(preceded by an existence read). -/
def create_dir_actions (dir_path : String) : List FileAction :=
  [.lockAcquire file_utils_lock,
   .fsRead ("exists " ++ dir_path),
   .fsMutate ("makedirs " ++ dir_path),
   .lockRelease file_utils_lock]

/-- Actions of `file_utils.remove_dir`: `with _lock:` existence check then
`shutil.rmtree(...)`. -/
def remove_dir_actions (dir_path : String) : List FileAction :=
  [.lockAcquire file_utils_lock,
   .fsRead ("exists " ++ dir_path),
   .fsMutate ("rmtree " ++ dir_path),
   .lockRelease file_utils_lock]

/-- Actions of `file_utils.copy_file`: `with _lock:` existence check then
`shutil.copy(src, dest)`. -/
def copy_file_actions (src dest : String) : List FileAction :=
  [.lockAcquire file_utils_lock,
   .fsRead ("exists " ++ src),
   .fsMutate ("copy " ++ src ++ " to " ++ dest),
   .lockRelease file_utils_lock]

/-- Actions of `file_utils._write_yaml`: `with _lock:` read the file, then
dump the updated document back. -/
def write_yaml_actions (path : String) : List FileAction :=
  [.lockAcquire file_utils_lock,
   .fsRead ("read " ++ path),
   .fsMutate ("dump " ++ path),
   .lockRelease file_utils_lock]

/-- Actions of the backup copy inside `HydraUtils.load_config` (line 72):
`shutil.copy2(config_path, Path(path_config.config_backup))` is called
directly, not through `file_utils.copy_file`, with no lock acquisition. -/
def load_config_backup_actions (config_path : String) : List FileAction :=
  [.fsMutate ("copy2 " ++ config_path ++ " to " ++ path_config_config_backup)]

/-- Does every filesystem mutation in the action list happen while the given
lock is held (tracking the acquisition depth)? -/
def mutationsLockedAux (lock : String) : Nat → List FileAction → Bool
  | _, [] => true
  | d, .lockAcquire l :: rest =>
      mutationsLockedAux lock (if l = lock then d + 1 else d) rest
  | d, .lockRelease l :: rest =>
      mutationsLockedAux lock (if l = lock then d - 1 else d) rest
  | d, .fsMutate _ :: rest => decide (0 < d) && mutationsLockedAux lock d rest
  | d, .fsRead _ :: rest => mutationsLockedAux lock d rest

/-- Every filesystem mutation in the list happens under the given lock. -/
def mutationsLocked (lock : String) (actions : List FileAction) : Bool :=
  mutationsLockedAux lock 0 actions

/-- The pure descent along dotted segments through mapping nodes, the prefix
of `_write_yaml`'s update loop before the final assignment (used to state
where a dotted path first leaves the existing document). -/
def descend : Doc → List String → Except Err Doc
  | d, [] => .ok d
  | .map entries, k :: rest =>
      match lookupA entries k with
      | none => .error (.keyError k)
      | some sub => descend sub rest
  | .seq _ _, _ :: _ => .error .typeError
  | .scalar _, _ :: _ => .error .typeError

/-- Apply a function `n` times (calling `_ensure_resolver` repeatedly). -/
def iterApply {α : Type} (f : α → α) : Nat → α → α
  | 0, a => a
  | n + 1, a => iterApply f n (f a)

/-- The value a `load_config`-style call returns to its caller, discarding
the process-wide state component of the model. -/
def loadValue (r : Except Err (LoadResult × HydraState)) : Except Err LoadResult :=
  match r with
  | .error e => .error e
  | .ok (v, _) => .ok v

/-! ## Helper lemmas -/

theorem lookupA_setA {α : Type} (m : List (String × α)) (k k' : String) (v : α) :
    lookupA (setA m k v) k' = if k' = k then some v else lookupA m k' := by
  induction m with
  | nil =>
      rcases eq_or_ne k' k with h | h
      · subst h; simp [setA, lookupA]
      · simp [setA, lookupA, h, if_neg (Ne.symm h)]
  | cons kv rest ih =>
      by_cases hk : kv.1 = k
      · rcases eq_or_ne k' k with h | h
        · subst h; simp [setA, lookupA, hk]
        · simp [setA, lookupA, hk, h, if_neg (Ne.symm h), fun hh : kv.1 = k' => h (hk ▸ hh).symm]
      · by_cases hk' : kv.1 = k'
        · have h : k' ≠ k := fun hh => hk (hk'.trans hh)
          simp [setA, lookupA, hk, hk', h]
        · simp [setA, lookupA, hk, hk', ih]

theorem lookupA_append {α : Type} (a b : List (String × α)) (k : String) :
    lookupA (a ++ b) k =
      match lookupA a k with
      | some v => some v
      | none => lookupA b k := by
  induction a with
  | nil => simp [lookupA]
  | cons kv rest ih =>
      by_cases hk : kv.1 = k <;> simp [lookupA, hk, ih]

theorem lookupA_filter_key {α : Type} (q : String → Bool) (m : List (String × α)) (k : String) :
    lookupA (m.filter (fun kv => q kv.1)) k = if q k then lookupA m k else none := by
  induction m with
  | nil => simp [lookupA]
  | cons kv rest ih =>
      by_cases hq : q kv.1 <;> by_cases hk : kv.1 = k
      · subst hk; simp [List.filter_cons, lookupA, hq]
      · simp [List.filter_cons, lookupA, hq, hk, ih]
      · subst hk; simp [List.filter_cons, lookupA, hq, ih]
      · simp [List.filter_cons, lookupA, hq, hk, ih]

theorem applyUpdates_append (a b : List (String × Doc)) (d : Doc) :
    applyUpdates d (a ++ b) =
      match applyUpdates d a with
      | .error e => .error e
      | .ok d' => applyUpdates d' b := by
  induction a generalizing d with
  | nil => simp [applyUpdates]
  | cons kv rest ih =>
      rcases kv with ⟨k, v⟩
      simp only [List.cons_append, applyUpdates]
      rcases setDotted d (splitDots k) (prepValue v) with e | d' <;> simp [ih]

theorem setDotted_missing_intermediate (pre : List String) :
    ∀ (data : Doc) (k : String) (rest : List String) (v : Doc) (m : List (String × Doc)),
      rest ≠ [] →
      descend data pre = .ok (.map m) →
      lookupA m k = none →
      setDotted data (pre ++ k :: rest) v = .error (.keyError k) := by
  induction pre with
  | nil =>
      intro data k rest v m hrest hdesc hmiss
      have hdata : data = .map m := by
        simpa [descend] using hdesc
      subst hdata
      rcases rest with _ | ⟨r, rs⟩
      · exact absurd rfl hrest
      · simp [setDotted, hmiss]
  | cons p ps ih =>
      intro data k rest v m hrest hdesc hmiss
      rcases data with s | ⟨fl, xs⟩ | entries
      · simp [descend] at hdesc
      · simp [descend] at hdesc
      · rcases hsub : lookupA entries p with _ | sub
        · rw [descend] at hdesc; rw [hsub] at hdesc; simp at hdesc
        · rw [descend] at hdesc; rw [hsub] at hdesc
          have hrec := ih sub k rest v m hrest hdesc hmiss
          rcases hq : ps ++ k :: rest with _ | ⟨q, qs⟩
          · exact absurd (List.append_eq_nil.mp hq).2 (by simp)
          · rw [hq] at hrec
            rw [List.cons_append, hq]
            simp [setDotted, hsub, hrec]

theorem takeWhile_all {α : Type} (p : α → Bool) (l : List α) (h : ∀ x ∈ l, p x = true) :
    l.takeWhile p = l := by
  induction l with
  | nil => rfl
  | cons x xs ih =>
      simp [List.takeWhile_cons, h x (by simp), ih fun y hy => h y (by simp [hy])]

theorem takeWhile_stop {α : Type} (p : α → Bool) (a : List α) (c : α) (b : List α)
    (ha : ∀ x ∈ a, p x = true) (hc : p c = false) :
    (a ++ c :: b).takeWhile p = a := by
  induction a with
  | nil => simp [List.takeWhile_cons, hc]
  | cons x xs ih =>
      simp [List.takeWhile_cons, ha x (by simp),
        ih fun y hy => ha y (by simp [hy])]

theorem dropWhile_head_false {α : Type} (p : α → Bool) (c : α) (l : List α)
    (hc : p c = false) : (c :: l).dropWhile p = c :: l := by
  simp [List.dropWhile_cons, hc]

theorem drop_length_append {α : Type} (a b : List α) : (a ++ b).drop a.length = b := by
  induction a with
  | nil => rfl
  | cons x xs ih => simp [ih]

theorem lookupA_map_override (b a : List (String × PyVal)) (k : String) :
    lookupA (a.map (fun kv =>
        match lookupA b kv.1 with
        | some v => (kv.1, v)
        | none => kv)) k
      = match lookupA a k with
        | none => none
        | some av =>
            match lookupA b k with
            | some bv => some bv
            | none => some av := by
  induction a with
  | nil => simp [lookupA]
  | cons kv rest ih =>
      by_cases hk : kv.1 = k
      · subst hk
        rcases hb : lookupA b kv.1 with _ | bv <;> simp [lookupA, hb]
      · rcases hb : lookupA b kv.1 with _ | bv <;> simp [lookupA, hb, hk, ih]

theorem lookupA_pyDictMerge (a b : List (String × PyVal)) (k : String) :
    lookupA (pyDictMerge a b) k
      = match lookupA a k with
        | some av =>
            match lookupA b k with
            | some bv => some bv
            | none => some av
        | none => lookupA b k := by
  simp only [pyDictMerge]
  rw [lookupA_append, lookupA_map_override]
  rcases hA : lookupA a k with _ | av <;> rcases hB : lookupA b k with _ | bv <;>
    simp [lookupA_filter_key (fun s => (lookupA a s).isNone), hA, hB]

theorem ensure_resolver_fs (st : HydraState) : (ensure_resolver st).fs = st.fs := by
  unfold ensure_resolver; split <;> rfl

theorem ensure_resolver_flag (st : HydraState) :
    (ensure_resolver st).globalHydraInitialized = st.globalHydraInitialized := by
  unfold ensure_resolver; split <;> rfl

theorem ensure_resolver_cache (st : HydraState) :
    (ensure_resolver st).resolverCache = st.resolverCache := by
  unfold ensure_resolver; split <;> rfl

theorem ensure_resolver_sets_flag (st : HydraState) :
    (ensure_resolver st).resolverRegistered = true := by
  unfold ensure_resolver
  split <;> simp_all

theorem ensure_resolver_idem (st : HydraState) (h : st.resolverRegistered = true) :
    ensure_resolver st = st := by
  unfold ensure_resolver; simp [h]

theorem iterApply_fixed {α : Type} (f : α → α) (a : α) (h : f a = a) :
    ∀ n, iterApply f n a = a := by
  intro n
  induction n with
  | zero => rfl
  | succ m ih => simp [iterApply, h, ih]

theorem pyNameChars_no_slash (l : List Char) (hl : l ≠ []) (hs : '/' ∉ l) :
    pyNameChars l = l := by
  cases hr : l.reverse with
  | nil => exact absurd (List.reverse_eq_nil_iff.mp hr) hl
  | cons e er =>
      have he : e ∈ l := by
        rw [← List.mem_reverse, hr]; exact List.mem_cons_self _ _
      have hef : e ≠ '/' := fun h => hs (h ▸ he)
      unfold pyNameChars
      rw [hr, dropWhile_head_false _ e er (by simp [hef]), ← hr,
        takeWhile_all _ _ (fun x hx => by
          simp only [ne_eq, decide_eq_true_eq]
          exact fun h => hs (h ▸ List.mem_reverse.mp hx))]
      simp

theorem pyNameChars_last_component (dir rest : List Char) (hr : rest ≠ [])
    (hs : '/' ∉ rest) : pyNameChars (dir ++ '/' :: rest) = rest := by
  have hrev : (dir ++ '/' :: rest).reverse = rest.reverse ++ '/' :: dir.reverse := by
    simp
  cases hre : rest.reverse with
  | nil => exact absurd (List.reverse_eq_nil_iff.mp hre) hr
  | cons e er =>
      have he : e ∈ rest := by
        rw [← List.mem_reverse, hre]; exact List.mem_cons_self _ _
      have hef : e ≠ '/' := fun h => hs (h ▸ he)
      unfold pyNameChars
      rw [hrev, hre, List.cons_append,
        dropWhile_head_false _ e (er ++ '/' :: dir.reverse) (by simp [hef]),
        ← List.cons_append, ← hre,
        takeWhile_stop _ rest.reverse '/' dir.reverse
          (fun x hx => by
            simp only [ne_eq, decide_eq_true_eq]
            exact fun h => hs (h ▸ List.mem_reverse.mp hx))
          (by simp)]
      simp

theorem pySuffixChars_stem_ext (stem ext : List Char) (hstem : stem ≠ [])
    (hext : ext ≠ []) (hed : '.' ∉ ext) :
    pySuffixChars (stem ++ '.' :: ext) = '.' :: ext := by
  have hrev : (stem ++ '.' :: ext).reverse = ext.reverse ++ '.' :: stem.reverse := by
    simp
  have htake : (ext.reverse ++ '.' :: stem.reverse).takeWhile (fun c => c ≠ '.')
      = ext.reverse :=
    takeWhile_stop _ ext.reverse '.' stem.reverse
      (fun x hx => by
        simp only [ne_eq, decide_eq_true_eq]
        exact fun h => hed (h ▸ List.mem_reverse.mp hx))
      (by simp)
  unfold pySuffixChars
  rw [hrev, htake, drop_length_append]
  have h1 : stem.reverse.isEmpty = false := by
    simp [List.isEmpty_iff, hstem]
  have h2 : ext.reverse.isEmpty = false := by
    simp [List.isEmpty_iff, hext]
  simp [h1, h2]

theorem resolve_key_cached (st : HydraState) (key v : String) (st' : HydraState)
    (h : resolve_key st key = (.ok v, st')) :
    resolve_key st' key = (.ok v, st') := by
  unfold resolve_key at h ⊢
  rcases hc : lookupA st.resolverCache key with _ | w
  · rw [hc] at h
    rcases hp : path_table key with _ | w
    · rw [hp] at h; simp at h
    · rw [hp] at h
      simp only [Prod.mk.injEq] at h
      obtain ⟨hv, hst⟩ := h
      have hv' : w = v := by simpa using hv
      subst hv'
      rw [← hst]
      simp [lookupA_setA]
  · rw [hc] at h
    simp only [Prod.mk.injEq] at h
    obtain ⟨hv, hst⟩ := h
    have hv' : w = v := by simpa using hv
    subst hv'
    subst hst
    simp [hc]

/-! ## Claim theorems -/

/-- Claim C1: when a composition root is already active
(`GlobalHydra.instance().is_initialized()`), `load_config` returns the raw
document loaded straight from the resolved file on disk, uninstantiated, and
the supplied `overrides` list has no effect on the call. -/
theorem load_config_degraded_ignores_overrides (st : HydraState)
    (cd cf : Option String) (ov : List String) (d : Doc)
    (hinit : st.globalHydraInitialized = true)
    (hfile : lookupFile st.fs
        (pathJoin (pyOrStr cd HydraUtils_config_dir) (pyOrStr cf HydraUtils_config_file))
        = some d) :
    loadValue (load_config st cd cf ov) = .ok (.raw d) ∧
    load_config st cd cf ov = load_config st cd cf [] := by
  constructor
  · simp only [loadValue, load_config, ensure_resolver_fs, ensure_resolver_flag]
    rw [hfile]
    simp [hinit]
  · simp only [load_config, ensure_resolver_fs, ensure_resolver_flag]
    rw [hfile]
    simp [hinit]

/-- Claim C1 witness: a concrete already-initialized state on which the
degraded load with overrides equals the load without them. -/
theorem load_config_degraded_ignores_overrides_witness :
    load_config
        ⟨[("root/src/configs/settings.yaml", Doc.map [("x", Doc.scalar "0")])],
         true, false, [], []⟩ none none ["++x=1"]
      = load_config
          ⟨[("root/src/configs/settings.yaml", Doc.map [("x", Doc.scalar "0")])],
           true, false, [], []⟩ none none [] :=
  (load_config_degraded_ignores_overrides
    ⟨[("root/src/configs/settings.yaml", Doc.map [("x", Doc.scalar "0")])],
     true, false, [], []⟩
    none none ["++x=1"] (Doc.map [("x", Doc.scalar "0")]) rfl rfl).2

/-- Claim C3: every `load_config` call — the degraded already-initialized
path included — first copies the resolved file into the run's backup
directory, byte-identically; a missing source file makes the uncaught copy
error propagate to the caller. -/
theorem load_config_backs_up_resolved_file (st : HydraState)
    (cd cf : Option String) (ov : List String) :
    (lookupFile st.fs
         (pathJoin (pyOrStr cd HydraUtils_config_dir) (pyOrStr cf HydraUtils_config_file))
         = none →
       load_config st cd cf ov
         = .error (.fileNotFound
             (pathJoin (pyOrStr cd HydraUtils_config_dir) (pyOrStr cf HydraUtils_config_file)))) ∧
    (∀ d r st',
       lookupFile st.fs
           (pathJoin (pyOrStr cd HydraUtils_config_dir) (pyOrStr cf HydraUtils_config_file))
           = some d →
       load_config st cd cf ov = .ok (r, st') →
       lookupFile st'.fs
           (pathJoin path_config_config_backup (pyOrStr cf HydraUtils_config_file))
         = some d) ∧
    (∀ d,
       lookupFile st.fs
           (pathJoin (pyOrStr cd HydraUtils_config_dir) (pyOrStr cf HydraUtils_config_file))
           = some d →
       st.globalHydraInitialized = true →
       loadValue (load_config st cd cf ov) = .ok (.raw d)) := by
  refine ⟨?_, ?_, ?_⟩
  · intro hnone
    simp only [load_config, ensure_resolver_fs]
    rw [hnone]
  · intro d r st' hfile hok
    simp only [load_config, ensure_resolver_fs, ensure_resolver_flag] at hok
    rw [hfile] at hok
    simp only [] at hok
    split at hok
    · injection hok with h
      have h2 : st'.fs = setFile st.fs
          (pathJoin path_config_config_backup (pyOrStr cf HydraUtils_config_file)) d := by
        have h3 := congrArg (fun p : LoadResult × HydraState => p.2.fs) h
        simpa using h3.symm
      rw [lookupFile, h2]
      simp [setFile, lookupA_setA]
    · split at hok
      · exact absurd hok (by simp)
      · injection hok with h
        have h2 : st'.fs = setFile st.fs
            (pathJoin path_config_config_backup (pyOrStr cf HydraUtils_config_file)) d := by
          have h3 := congrArg (fun p : LoadResult × HydraState => p.2.fs) h
          simpa using h3.symm
        rw [lookupFile, h2]
        simp [setFile, lookupA_setA]
  · intro d hfile hinit
    simp only [loadValue, load_config, ensure_resolver_fs, ensure_resolver_flag]
    rw [hfile]
    simp [hinit]

/-- Claim C3 witness: a missing source file propagates the not-found error,
and a degraded load of a present file succeeds returning the raw document
(hence, by the theorem's second conjunct, after copying it into the backup
directory). -/
theorem load_config_backs_up_resolved_file_witness :
    load_config ⟨[], true, false, [], []⟩ none none []
        = .error (.fileNotFound "root/src/configs/settings.yaml") ∧
    loadValue (load_config
        ⟨[("root/src/configs/settings.yaml", Doc.map [("x", Doc.scalar "0")])],
         true, false, [], []⟩ none none [])
        = .ok (.raw (Doc.map [("x", Doc.scalar "0")])) :=
  ⟨(load_config_backs_up_resolved_file ⟨[], true, false, [], []⟩ none none []).1 rfl,
   (load_config_backs_up_resolved_file
      ⟨[("root/src/configs/settings.yaml", Doc.map [("x", Doc.scalar "0")])],
       true, false, [], []⟩ none none []).2.2
     (Doc.map [("x", Doc.scalar "0")]) rfl rfl⟩

/-- Claim C2: if a dotted-path update has a missing intermediate segment, the
write fails with `KeyError` and the file on disk is left unmodified; more
generally, any exception raised in the update loop aborts the operation
before the file is opened for writing, so no partial write ever occurs. -/
theorem write_file_missing_intermediate_no_partial_write (fs : FS) (path : String)
    (updates : List (String × Doc)) (data : Doc)
    (hyaml : get_file_extension path = "yaml")
    (hfile : lookupFile fs path = some data) :
    (∀ e, applyUpdates data updates = .error e →
       (write_file fs path updates).err = some e ∧
       (write_file fs path updates).fs = fs) ∧
    (∀ (done : List (String × Doc)) (key : String) (v : Doc)
        (tail : List (String × Doc)) (d1 : Doc) (pre : List String) (k : String)
        (rest : List String) (m : List (String × Doc)),
       updates = done ++ (key, v) :: tail →
       applyUpdates data done = .ok d1 →
       splitDots key = pre ++ k :: rest →
       rest ≠ [] →
       descend d1 pre = .ok (.map m) →
       lookupA m k = none →
       (write_file fs path updates).err = some (.keyError k) ∧
       (write_file fs path updates).fs = fs) := by
  have herr : ∀ e, applyUpdates data updates = .error e →
      (write_file fs path updates).err = some e ∧
      (write_file fs path updates).fs = fs := by
    intro e happ
    have hw : write_yaml fs path updates
        = { err := some e, fs := fs, logs := (read_file fs path).logs } := by
      simp only [write_yaml, read_file, hyaml]
      rw [hfile]
      simp [happ]
    constructor
    · simp [write_file, hyaml, hw]
    · simp [write_file, hyaml, hw]
  refine ⟨herr, ?_⟩
  intro done key v tail d1 pre k rest m hupd hdone hsplit hrest hdesc hmiss
  have happ : applyUpdates data updates = .error (.keyError k) := by
    rw [hupd, applyUpdates_append, hdone]
    have hset : setDotted d1 (splitDots key) (prepValue v) = .error (.keyError k) := by
      rw [hsplit]
      exact setDotted_missing_intermediate pre d1 k rest (prepValue v) m hrest hdesc hmiss
    simp [applyUpdates, hset]
  exact herr _ happ

/-- Claim C2 witness: updating `"a.b.c"` when `"a.b"` is absent fails with
`KeyError "b"` and leaves the on-disk document unchanged. -/
theorem write_file_missing_intermediate_witness :
    (write_file [("cfg.yaml", Doc.map [("a", Doc.map [("x", Doc.scalar "0")])])]
        "cfg.yaml" [("a.b.c", Doc.scalar "1")]).err = some (.keyError "b") ∧
    (write_file [("cfg.yaml", Doc.map [("a", Doc.map [("x", Doc.scalar "0")])])]
        "cfg.yaml" [("a.b.c", Doc.scalar "1")]).fs
      = [("cfg.yaml", Doc.map [("a", Doc.map [("x", Doc.scalar "0")])])] :=
  (write_file_missing_intermediate_no_partial_write
      [("cfg.yaml", Doc.map [("a", Doc.map [("x", Doc.scalar "0")])])] "cfg.yaml"
      [("a.b.c", Doc.scalar "1")] (Doc.map [("a", Doc.map [("x", Doc.scalar "0")])])
      (by decide) rfl).2
    [] "a.b.c" (Doc.scalar "1") [] (Doc.map [("a", Doc.map [("x", Doc.scalar "0")])])
    ["a"] "b" ["c"] [("x", Doc.scalar "0")] rfl rfl (by decide) (by simp) rfl rfl

/-- Claim C4: for any extension other than `"yaml"`, both `read_file` and
`write_file` log an error and raise `NotImplementedError` without touching
the filesystem; with the `"yaml"` extension both proceed, and a missing file
on read fails with a propagating not-found error. -/
theorem read_write_file_dispatch (fs : FS) (path : String) (data : List (String × Doc)) :
    (get_file_extension path ≠ "yaml" →
       (read_file fs path).result = .error .notImplementedError ∧
       (read_file fs path).logs = [(LogLevel.logError, "Extension not implemented yet")] ∧
       (write_file fs path data).err = some .notImplementedError ∧
       (write_file fs path data).fs = fs ∧
       (write_file fs path data).logs = [(LogLevel.logError, "Extension not implemented yet")]) ∧
    (get_file_extension path = "yaml" →
       (lookupFile fs path = none →
          (read_file fs path).result = .error (.fileNotFound path)) ∧
       (∀ d, lookupFile fs path = some d → (read_file fs path).result = .ok d) ∧
       (write_file fs path data).err = (write_yaml fs path data).err ∧
       (write_file fs path data).fs = (write_yaml fs path data).fs) := by
  by_cases hy : get_file_extension path = "yaml"
  · refine ⟨fun h => absurd hy h, fun _ => ⟨?_, ?_, ?_, ?_⟩⟩
    · intro hnone
      simp only [read_file, hy]
      rw [hnone]
    · intro d hsome
      simp only [read_file, hy]
      rw [hsome]
    · rcases hw : (write_yaml fs path data).err with _ | e <;>
        simp [write_file, hy, hw]
    · rcases hw : (write_yaml fs path data).err with _ | e <;>
        simp [write_file, hy, hw]
  · refine ⟨fun _ => ?_, fun h => absurd h hy⟩
    have hr : read_file fs path
        = { result := .error .notImplementedError
            logs := [(LogLevel.logError, "Extension not implemented yet")] } := by
      simp only [read_file]
    have hw : write_file fs path data
        = { err := some .notImplementedError, fs := fs
            logs := [(LogLevel.logError, "Extension not implemented yet")] } := by
      simp only [write_file]
    rw [hr, hw]
    exact ⟨rfl, rfl, rfl, rfl, rfl⟩

/-- Claim C4 witness: a `.json` path fails on both read and write leaving the
filesystem untouched, and a missing `.yaml` file fails with not-found. -/
theorem read_write_file_dispatch_witness :
    (read_file [] "cfg.json").result = .error .notImplementedError ∧
    (write_file [] "cfg.json" []).fs = [] ∧
    (read_file [] "cfg.yaml").result = .error (.fileNotFound "cfg.yaml") :=
  ⟨((read_write_file_dispatch [] "cfg.json" []).1 (by decide)).1,
   ((read_write_file_dispatch [] "cfg.json" []).1 (by decide)).2.2.2.1,
   ((read_write_file_dispatch [] "cfg.yaml" []).2 (by decide)).1 rfl⟩

/-- Claim C5 (counterexample): `get_file_extension` does not lowercase — on
`"settings.YAML"` it returns `"YAML"`, not the lowercase suffix `"yaml"` the
claim demands. -/
theorem get_file_extension_not_lowercased :
    get_file_extension "settings.YAML" = "YAML" ∧ "YAML" ≠ "yaml" := by
  exact ⟨by decide, by decide⟩

/-- Claim C5 (amended): `get_file_extension` returns the suffix of the path's
final component after its last dot, without the leading dot, preserving the
original case (no lowercasing is performed). -/
theorem get_file_extension_returns_suffix (dir stem ext : List Char)
    (hstem : stem ≠ []) (hss : '/' ∉ stem)
    (hext : ext ≠ []) (hed : '.' ∉ ext) (hes : '/' ∉ ext) :
    get_file_extension (String.mk (stem ++ '.' :: ext)) = String.mk ext ∧
    get_file_extension (String.mk (dir ++ '/' :: (stem ++ '.' :: ext))) = String.mk ext := by
  have hne : stem ++ '.' :: ext ≠ [] := by simp
  have hns : '/' ∉ stem ++ '.' :: ext := by
    intro hmem
    rcases List.mem_append.mp hmem with h | h
    · exact hss h
    · rcases List.mem_cons.mp h with h | h
      · exact absurd h.symm (by decide)
      · exact hes h
  constructor
  · show String.mk (stripLeadingDot (pySuffixChars (pyNameChars (String.mk (stem ++ '.' :: ext)).toList))) = String.mk ext
    rw [show (String.mk (stem ++ '.' :: ext)).toList = stem ++ '.' :: ext from rfl]
    rw [pyNameChars_no_slash _ hne hns, pySuffixChars_stem_ext stem ext hstem hext hed]
    rfl
  · show String.mk (stripLeadingDot (pySuffixChars (pyNameChars (String.mk (dir ++ '/' :: (stem ++ '.' :: ext))).toList))) = String.mk ext
    rw [show (String.mk (dir ++ '/' :: (stem ++ '.' :: ext))).toList = dir ++ '/' :: (stem ++ '.' :: ext) from rfl]
    rw [pyNameChars_last_component dir _ hne hns, pySuffixChars_stem_ext stem ext hstem hext hed]
    rfl

/-- Claim C5 (amended) witness: `"a/b/settings.YAML"` and `"settings.YAML"`
both yield `"YAML"`. -/
theorem get_file_extension_returns_suffix_witness :
    get_file_extension (String.mk ("settings".toList ++ '.' :: "YAML".toList))
        = String.mk "YAML".toList ∧
    get_file_extension (String.mk ("a/b".toList ++ '/' :: ("settings".toList ++ '.' :: "YAML".toList)))
        = String.mk "YAML".toList :=
  get_file_extension_returns_suffix "a/b".toList "settings".toList "YAML".toList
    (by decide) (by decide) (by decide) (by decide) (by decide)

/-- Claim C6: starting from a state whose class flag is unset, `N ≥ 1` calls
to `_ensure_resolver` register exactly one `path_config` resolver; every call
after the first is a no-op, and resolving the same key twice returns the
identical cached result without re-executing the lookup or changing state. -/
theorem ensure_resolver_registers_once (st : HydraState) (n : Nat)
    (hflag : st.resolverRegistered = false) (hn : 1 ≤ n) :
    (iterApply ensure_resolver n st).registeredResolvers
        = st.registeredResolvers ++ ["path_config"] ∧
    iterApply ensure_resolver n st = ensure_resolver st ∧
    ensure_resolver (iterApply ensure_resolver n st) = iterApply ensure_resolver n st ∧
    (∀ key v st', resolve_key (iterApply ensure_resolver n st) key = (.ok v, st') →
       resolve_key st' key = (.ok v, st')) := by
  obtain ⟨m, rfl⟩ : ∃ m, n = m + 1 := ⟨n - 1, by omega⟩
  have h1 : iterApply ensure_resolver (m + 1) st = ensure_resolver st := by
    show iterApply ensure_resolver m (ensure_resolver st) = ensure_resolver st
    exact iterApply_fixed _ _ (ensure_resolver_idem _ (ensure_resolver_sets_flag st)) m
  refine ⟨?_, h1, ?_, ?_⟩
  · rw [h1]
    unfold ensure_resolver
    simp [hflag]
  · rw [h1]
    exact ensure_resolver_idem _ (ensure_resolver_sets_flag st)
  · intro key v st' h
    exact resolve_key_cached _ key v st' h

/-- Claim C6 witness: three calls on a fresh state register exactly one
resolver. -/
theorem ensure_resolver_registers_once_witness :
    (iterApply ensure_resolver 3 ⟨[], false, false, [], []⟩).registeredResolvers
      = ([] : List String) ++ ["path_config"] :=
  (ensure_resolver_registers_once ⟨[], false, false, [], []⟩ 3 rfl (by omega)).1

/-- Claim C7: `update_config` persists the updates into the on-disk file via
the document store's write, then reloads with `load_config` on the same
resolved directory and file with no overrides, returning that reload's
result; the reload runs on a filesystem in which the file now holds the
updated document. -/
theorem update_config_writes_then_reloads (st : HydraState)
    (updates : List (String × Doc)) (cd cf : Option String) :
    (∀ e, (write_file st.fs
          (pathJoin (pyOrStr cd HydraUtils_config_dir) (pyOrStr cf HydraUtils_config_file))
          updates).err = some e →
       update_config st updates cd cf = .error e) ∧
    ((write_file st.fs
          (pathJoin (pyOrStr cd HydraUtils_config_dir) (pyOrStr cf HydraUtils_config_file))
          updates).err = none →
       update_config st updates cd cf
         = load_config
             { ensure_resolver st with
                 fs := (write_file st.fs
                   (pathJoin (pyOrStr cd HydraUtils_config_dir) (pyOrStr cf HydraUtils_config_file))
                   updates).fs }
             (some (pyOrStr cd HydraUtils_config_dir)) (some (pyOrStr cf HydraUtils_config_file)) []) ∧
    (∀ data d1,
       lookupFile st.fs
           (pathJoin (pyOrStr cd HydraUtils_config_dir) (pyOrStr cf HydraUtils_config_file))
           = some data →
       get_file_extension
           (pathJoin (pyOrStr cd HydraUtils_config_dir) (pyOrStr cf HydraUtils_config_file))
           = "yaml" →
       applyUpdates data updates = .ok d1 →
       lookupFile
           (write_file st.fs
             (pathJoin (pyOrStr cd HydraUtils_config_dir) (pyOrStr cf HydraUtils_config_file))
             updates).fs
           (pathJoin (pyOrStr cd HydraUtils_config_dir) (pyOrStr cf HydraUtils_config_file))
         = some d1) := by
  refine ⟨?_, ?_, ?_⟩
  · intro e herr
    simp only [update_config, ensure_resolver_fs]
    rw [herr]
  · intro hnone
    simp only [update_config, ensure_resolver_fs]
    rw [hnone]
  · intro data d1 hfile happ
    intro happly
    have hw : write_yaml st.fs
        (pathJoin (pyOrStr cd HydraUtils_config_dir) (pyOrStr cf HydraUtils_config_file))
        updates
        = { err := none,
            fs := setFile st.fs
              (pathJoin (pyOrStr cd HydraUtils_config_dir) (pyOrStr cf HydraUtils_config_file)) d1,
            logs := (read_file st.fs
              (pathJoin (pyOrStr cd HydraUtils_config_dir) (pyOrStr cf HydraUtils_config_file))).logs } := by
      simp only [write_yaml, read_file, happ]
      rw [hfile]
      simp [happly]
    simp only [write_file, happ, hw]
    simp [lookupFile, setFile, lookupA_setA]

/-- Claim C7 witness: a concrete update round-trip where the post-write
filesystem holds the updated document and `update_config` equals the reload
of the written state. -/
theorem update_config_writes_then_reloads_witness :
    lookupFile
        (write_file [("root/src/configs/settings.yaml", Doc.map [("x", Doc.scalar "0")])]
          (pathJoin (pyOrStr none HydraUtils_config_dir) (pyOrStr none HydraUtils_config_file))
          [("x", Doc.scalar "1")]).fs
        (pathJoin (pyOrStr none HydraUtils_config_dir) (pyOrStr none HydraUtils_config_file))
      = some (Doc.map [("x", Doc.scalar "1")]) :=
  (update_config_writes_then_reloads
      ⟨[("root/src/configs/settings.yaml", Doc.map [("x", Doc.scalar "0")])],
       true, false, [], []⟩
      [("x", Doc.scalar "1")] none none).2.2
    (Doc.map [("x", Doc.scalar "0")]) (Doc.map [("x", Doc.scalar "1")])
    rfl (by decide) rfl

/-- Claim C9 (counterexample): the backup copy inside `load_config` (the
direct `shutil.copy2` call) performs its filesystem mutation without
acquiring the process-wide file lock, refuting the claim that every file
mutation — that copy included — is serialized by it. -/
theorem load_config_backup_copy_unlocked :
    mutationsLocked file_utils_lock
      (load_config_backup_actions "root/src/configs/settings.yaml") = false := rfl

/-- Claim C9 (amended): the mutating file operations of `file_utils`
(directory rename, create, remove, file copy, YAML write) all perform their
filesystem mutations while holding the single module-level lock, but the
backup copy inside `load_config` bypasses `file_utils` and mutates the
filesystem without acquiring that lock. -/
theorem file_mutations_locked_except_backup (dp ndp p src dest q : String) :
    mutationsLocked file_utils_lock (rename_dir_actions dp ndp) = true ∧
    mutationsLocked file_utils_lock (create_dir_actions p) = true ∧
    mutationsLocked file_utils_lock (remove_dir_actions p) = true ∧
    mutationsLocked file_utils_lock (copy_file_actions src dest) = true ∧
    mutationsLocked file_utils_lock (write_yaml_actions p) = true ∧
    mutationsLocked file_utils_lock (load_config_backup_actions q) = false :=
  ⟨rfl, rfl, rfl, rfl, rfl, rfl⟩

/-- Claim C10: passing an explicit empty string for `config_dir` or
`config_file` behaves exactly like passing `None` in both `load_config` and
`update_config`: the `or`-coalescing on truthiness selects the class-level
defaults. -/
theorem empty_string_args_use_defaults (st : HydraState) (cd cf : Option String)
    (ov : List String) (updates : List (String × Doc)) (dflt : String) :
    pyOrStr (some "") dflt = dflt ∧
    pyOrStr none dflt = dflt ∧
    load_config st (some "") cf ov = load_config st none cf ov ∧
    load_config st cd (some "") ov = load_config st cd none ov ∧
    update_config st updates (some "") cf = update_config st updates none cf ∧
    update_config st updates cd (some "") = update_config st updates cd none :=
  ⟨rfl, rfl, rfl, rfl, rfl, rfl⟩

/-- Claim C8 (counterexample): construction does not partition every input
key into its matching declared field — an input that explicitly binds the
declared `extra` field has that value discarded, because the before-validator
overwrites `values["extra"]` with the collected undeclared entries; the
subscript `schema["extra"]` also fails rather than return the configured
value. -/
theorem mkSchema_extra_key_clobbered :
    fieldValue (mkSchema ["x", "extra"] [("extra", PyVal.int 5)]) "extra"
        = some (.dict []) ∧
    lookupA [("extra", PyVal.int 5)] "extra" = some (.int 5) ∧
    some (PyVal.dict []) ≠ some (PyVal.int 5) ∧
    getItem (mkSchema ["x", "extra"] [("extra", PyVal.int 5)]) "extra" = none := by
  refine ⟨rfl, rfl, fun h => ?_, rfl⟩
  exact PyVal.noConfusion (Option.some.inj h)

/-- Claim C8 (amended): construction partitions the input keys other than the
reserved `extra` key: every such key matching a declared field populates that
field, every undeclared key is collected into `extra`, and subscript access
returns the configured value for every input key except `extra` itself (whose
supplied value is recomputed as the collected extras, and whose subscript
raises a lookup error); `to_dict` is the union of the declared fields
(excluding `extra`) and the collected extras. -/
theorem mkSchema_partitions_input (declared : List String)
    (values : List (String × PyVal)) (hdecl : declared.contains "extra" = true) :
    ((mkSchema declared values).extra
        = values.filter (fun kv => !declared.contains kv.1)) ∧
    (∀ k v, k ≠ "extra" → declared.contains k = true → lookupA values k = some v →
       lookupA (mkSchema declared values).fields k = some v) ∧
    (∀ k, k ≠ "extra" → getItem (mkSchema declared values) k = lookupA values k) ∧
    getItem (mkSchema declared values) "extra" = none := by
  have hvE : lookupA (collect_extra_fields declared values) "extra"
      = some (.dict (values.filter (fun kv => !declared.contains kv.1))) := by
    simp only [collect_extra_fields]
    rw [lookupA_setA]
    simp
  have hvK : ∀ k, k ≠ "extra" →
      lookupA (collect_extra_fields declared values) k = lookupA values k := by
    intro k hk
    simp only [collect_extra_fields]
    rw [lookupA_setA, if_neg hk]
  have hextra : (mkSchema declared values).extra
      = values.filter (fun kv => !declared.contains kv.1) := by
    show (match lookupA (collect_extra_fields declared values) "extra" with
      | some (.dict d) => d
      | _ => ([] : List (String × PyVal))) = _
    rw [hvE]
  have hfields : ∀ k, lookupA (mkSchema declared values).fields k
      = if declared.contains k && k != "extra"
        then lookupA (collect_extra_fields declared values) k else none := by
    intro k
    exact lookupA_filter_key (fun s => declared.contains s && s != "extra")
      (collect_extra_fields declared values) k
  have hpyd : ∀ k, lookupA (mkSchema declared values).pydExtra k
      = if !declared.contains k
        then lookupA (collect_extra_fields declared values) k else none := by
    intro k
    exact lookupA_filter_key (fun s => !declared.contains s)
      (collect_extra_fields declared values) k
  have hB : ∀ k, lookupA (mkSchema declared values).extra k
      = if !declared.contains k then lookupA values k else none := by
    intro k
    rw [hextra]
    exact lookupA_filter_key (fun s => !declared.contains s) values k
  have hget : ∀ k, getItem (mkSchema declared values) k
      = match lookupA ((mkSchema declared values).fields
            ++ (mkSchema declared values).pydExtra) k with
        | some av =>
            match lookupA (mkSchema declared values).extra k with
            | some bv => some bv
            | none => some av
        | none => lookupA (mkSchema declared values).extra k := by
    intro k
    simp only [getItem, to_dict, model_dump_no_extra]
    exact lookupA_pyDictMerge _ _ k
  refine ⟨hextra, ?_, ?_, ?_⟩
  · intro k v hk hdk hval
    have hmem : k ∈ declared := by simpa using hdk
    rw [hfields k, hvK k hk]
    simp [hmem, hk, hval]
  · intro k hk
    rw [hget k, lookupA_append, hfields k, hpyd k, hB k]
    rcases hc : declared.contains k with _ | _
    · rw [hvK k hk]
      rcases hval : lookupA values k with _ | w <;> simp [hval]
    · rw [hvK k hk]
      rcases hval : lookupA values k with _ | w <;> simp [hval, hk]
  · rw [hget "extra", lookupA_append, hfields "extra", hpyd "extra", hB "extra"]
    rw [hdecl]
    simp

/-- Claim C8 (amended) witness: a concrete schema with declared fields
`x, extra` and input `x = 1, y = 2` — `x` populates its field, `y` lands in
`extra`, subscripting returns both, and `extra` is not subscriptable. -/
theorem mkSchema_partitions_input_witness :
    lookupA (mkSchema ["x", "extra"] [("x", PyVal.int 1), ("y", PyVal.int 2)]).fields "x"
        = some (PyVal.int 1) ∧
    (mkSchema ["x", "extra"] [("x", PyVal.int 1), ("y", PyVal.int 2)]).extra
        = [("y", PyVal.int 2)] ∧
    getItem (mkSchema ["x", "extra"] [("x", PyVal.int 1), ("y", PyVal.int 2)]) "y"
        = some (PyVal.int 2) ∧
    getItem (mkSchema ["x", "extra"] [("x", PyVal.int 1), ("y", PyVal.int 2)]) "extra"
        = none := by
  have h := mkSchema_partitions_input ["x", "extra"]
    [("x", PyVal.int 1), ("y", PyVal.int 2)] (by decide)
  refine ⟨h.2.1 "x" (PyVal.int 1) (by decide) (by decide) rfl, ?_, ?_, h.2.2.2⟩
  · rw [h.1]
    rfl
  · rw [h.2.2.1 "y" (by decide)]
    rfl

end Aluci
